import Mathlib

/-!
Formal model of the `wandb/data_types.py` Table / PartitionedTable layer.

The Python source is embedded shallowly:

* `WBType` models the TypeDescriptor lattice consumed by `Table`
  (`_dtypes` module).  The `_dtypes` module itself is not part of the
  source tree under verification, so its `assign` narrowing operation is
  modelled from the specification's narrowing algorithm.
* `Table` models `wandb.data_types.Table`: ordered column names, ordered
  rows, and the incrementally maintained column `Record` type.
* Union members and record fields are encoded as cons-chains inside
  `WBType` itself (`unionCons`/`recCons`), which is a direct encoding of
  "ordered list of members / ordered mapping of fields" that keeps the
  type a plain (non-nested) inductive.
* Machine integers do not occur (row counts are unbounded Python ints),
  so `Nat`/`Int` are used directly.
* Python exceptions are modelled by returning the unchanged receiver
  together with `Option` error payloads: a raised exception aborts the
  method before any of its later writes happen.
-/

/-- Column names in the source are strings or ints
(`Table._assert_valid_columns`). -/
inductive ColName where
  | str (s : String)
  | int (n : Int)
deriving DecidableEq, Repr

/-- Cell values: the primitive fragment of the Python value universe
(numbers, strings, booleans, None).  Rich values and raw containers are
outside this fragment. -/
inductive Value where
  | vnum (n : Int)
  | vstr (s : String)
  | vbool (b : Bool)
  | vnull
deriving DecidableEq, Repr

/-- Scalar kinds of the Primitive type descriptors. -/
inductive PrimKind where
  | number | string | boolean | pnone | binary
deriving DecidableEq, Repr

/-- Modelled from the spec: the TypeDescriptor variants of the `_dtypes`
module (not part of the verified source tree).  Union members and record
fields are kept as cons-chains (`unionNil`/`unionCons`,
`recNil`/`recCons`), i.e. an ordered list of members and an ordered
name-to-descriptor mapping. -/
inductive WBType where
  | unknown
  | invalid
  | const (v : Value)
  | prim (k : PrimKind)
  | opt (t : WBType)
  | unionNil
  | unionCons (t : WBType) (rest : WBType)
  | recNil
  | recCons (n : ColName) (t : WBType) (rest : WBType)
deriving DecidableEq, Repr

/-- Concrete type of a value (spec: `typeOf`). -/
def typeOf : Value → WBType
  | .vnum _ => .prim .number
  | .vstr _ => .prim .string
  | .vbool _ => .prim .boolean
  | .vnull => .prim .pnone

/-- Modelled from the spec: the `assign` narrowing operation of the
`_dtypes` module (spec section 4.1, steps 1-5; step 6 for mappings is
`dictAssign` below).  Never raises; returns `invalid` on
incompatibility.  A union tries its members in order, replacing the
first member that narrows successfully, and widens with the value's
concrete type when no member accepts it. -/
def WBType.assign (t : WBType) (v : Value) : WBType :=
  match t with
  | .unknown => typeOf v
  | .invalid => .invalid
  | .const c => if v = c then .const c else .invalid
  | .prim k => if typeOf v = .prim k then .prim k else .invalid
  | .opt inner =>
    if v = .vnull then .opt inner
    else if inner.assign v = .invalid then .invalid
    else .opt (inner.assign v)
  | .unionNil => .unionCons (typeOf v) .unionNil
  | .unionCons m rest =>
    if m.assign v = .invalid then
      if rest.assign v = .invalid then .invalid
      else .unionCons m (rest.assign v)
    else .unionCons (m.assign v) rest
  | .recNil => .invalid
  | .recCons _ _ _ => .invalid

/-- Lookup of a column key in an incoming row mapping. -/
def lookupCol : List (ColName × Value) → ColName → Option Value
  | [], _ => none
  | (k, v) :: rest, c => if k = c then some v else lookupCol rest c

/-- Whether a descriptor is already `Optional`. -/
def WBType.isOptionalT : WBType → Bool
  | .opt _ => true
  | _ => false

/-- Modelled from the spec: per-field narrowing of a record's field
chain against an incoming mapping (spec section 4.1 step 6).  Fields
present in the mapping are narrowed; absent fields are wrapped
`Optional` when not already; a per-field failure makes the whole record
narrowing fail (`none`). -/
def fieldsNarrow (fields : WBType) (m : List (ColName × Value)) : Option WBType :=
  match fields with
  | .recNil => some .recNil
  | .recCons n t rest =>
    match lookupCol m n with
    | some v =>
      if t.assign v = .invalid then none
      else (fieldsNarrow rest m).map (.recCons n (t.assign v))
    | none =>
      (fieldsNarrow rest m).map
        (.recCons n (if t.isOptionalT then t else .opt t))
  | _ => none

/-- Names present in a record field chain. -/
def fieldNames : WBType → List ColName
  | .recCons n _ rest => n :: fieldNames rest
  | _ => []

/-- Modelled from the spec: mapping keys absent from the record's fields
are added as new optional fields. -/
def extraFields (fields : WBType) : List (ColName × Value) → WBType
  | [] => .recNil
  | (k, v) :: rest =>
    if k ∈ fieldNames fields then extraFields fields rest
    else .recCons k (.opt (typeOf v)) (extraFields fields rest)

/-- Append two record field chains. -/
def appendFields : WBType → WBType → WBType
  | .recCons n t rest, e => .recCons n t (appendFields rest e)
  | _, e => e

/-- Concrete record type of a mapping (spec: `typeOf` of a mapping). -/
def typeOfDict : List (ColName × Value) → WBType
  | [] => .recNil
  | (k, v) :: rest => .recCons k (typeOf v) (typeOfDict rest)

/-- Modelled from the spec: `assign` applied to a mapping value (used by
`Table._validate_data`, which assigns a column-name to cell dict to the
column Record type). -/
def dictAssign (t : WBType) (m : List (ColName × Value)) : WBType :=
  match t with
  | .unknown => typeOfDict m
  | .recNil =>
    match fieldsNarrow .recNil m with
    | none => .invalid
    | some fs => appendFields fs (extraFields .recNil m)
  | .recCons n ty rest =>
    match fieldsNarrow (.recCons n ty rest) m with
    | none => .invalid
    | some fs => appendFields fs (extraFields (.recCons n ty rest) m)
  | _ => .invalid

/-- Render a column name for diagnostics. -/
def ColName.render : ColName → String
  | .str s => s
  | .int n => toString n

/-- Per-field diagnostics for the fields of a record that fail to narrow
against an incoming mapping. -/
def explainParts (fields : WBType) (m : List (ColName × Value)) : List String :=
  match fields with
  | .recCons n t rest =>
    match lookupCol m n with
    | some v =>
      if t.assign v = .invalid then
        ("column " ++ n.render ++ " cannot accept value") :: explainParts rest m
      else explainParts rest m
    | none => explainParts rest m
  | _ => []

/-- Modelled from the spec: the `explain` diagnostic of the `_dtypes`
module: a human-readable description identifying exactly which fields of
a record failed to narrow. -/
def explainDict (fields : WBType) (m : List (ColName × Value)) : String :=
  String.intercalate ", " (explainParts fields m)

/-- `wandb.data_types.Table`: ordered column names, ordered rows, and
the incrementally maintained column Record type (`self._column_types`,
a `DictType` whose field chain is `column_types`). -/
structure Table where
  columns : List ColName
  data : List (List Value)
  column_types : WBType
deriving DecidableEq, Repr

/-- Errors raised by Table mutation (`ValueError` / `TypeError`
payloads). -/
inductive TableError where
  | shapeError (expected : Nat) (got : Nat)
  | typeMismatch (explanation : String)
  | castIncompatible (v : Value) (vt : WBType) (target : WBType)
  | missingColumn (c : ColName)
deriving DecidableEq, Repr

/-- Row-structure invariant of a Table: every row has exactly one cell
per column. -/
def Table.wf (t : Table) : Prop :=
  ∀ r ∈ t.data, r.length = t.columns.length

instance (t : Table) : Decidable t.wf := List.decidableBAll _ _

/-- `Table.add_data`: raises a shape error when the argument count
differs from the column count, otherwise narrows the column Record type
against the column-name to cell mapping (`_validate_data`); an
`InvalidType` result raises a `TypeError` carrying the `explain`
diagnostic; on success the narrowed type is committed and the row
appended.  A raise returns the unchanged table. -/
def Table.add_data (t : Table) (cells : List Value) : Table × Option TableError :=
  if cells.length ≠ t.columns.length then
    (t, some (.shapeError t.columns.length cells.length))
  else if dictAssign t.column_types (t.columns.zip cells) = .invalid then
    (t, some (.typeMismatch (explainDict t.column_types (t.columns.zip cells))))
  else
    ({ t with
        column_types := dictAssign t.column_types (t.columns.zip cells),
        data := t.data ++ [cells] }, none)

/-- The fold inside `Table.cast`: re-narrow the cast descriptor against
every existing value of the column, stopping at the first incompatible
value. -/
def castNarrow (wbtype : WBType) (rows : List (List Value)) (ndx : Nat) :
    WBType ⊕ (Value × WBType) :=
  match rows with
  | [] => .inl wbtype
  | r :: rest =>
    if wbtype.assign (r.getD ndx .vnull) = .invalid then
      .inr (r.getD ndx .vnull, wbtype)
    else castNarrow (wbtype.assign (r.getD ndx .vnull)) rest ndx

/-- Replace the entry of a field name in a record chain, appending it
when absent (Python dict item assignment on `params["type_map"]`). -/
def setField (fields : WBType) (c : ColName) (ty : WBType) : WBType :=
  match fields with
  | .recCons n t rest =>
    if n = c then .recCons n ty rest else .recCons n t (setField rest c ty)
  | _ => .recCons c ty .recNil

/-- `Table.cast`: builds the target descriptor (wrapped `Optional` when
requested), re-narrows it against all existing values of the column and
raises a `TypeError` at the first incompatible value, leaving the column
type entry unchanged; on success the column's entry in the column Record
type is replaced by the narrowed descriptor.  Rows are never modified. -/
def Table.cast (t : Table) (col : ColName) (dtype : WBType) (optional : Bool) :
    Table × Option TableError :=
  match t.columns.indexOf? col with
  | none => (t, some (.missingColumn col))
  | some ndx =>
    match castNarrow (if optional then WBType.opt dtype else dtype) t.data ndx with
    | .inr (v, cur) => (t, some (.castIncompatible v (typeOf v) cur))
    | .inl narrowed =>
      ({ t with column_types := setField t.column_types col narrowed }, none)

/-- `Table._make_column_types` for the default construction path
(`optional=True`, `dtype=None`): starts from an empty `DictType` and
casts every column to `Optional(Unknown)`. -/
def Table.initTable (cols : List ColName) : Table :=
  cols.foldl (fun t c => (t.cast c .unknown true).1)
    { columns := cols, data := [], column_types := .recNil }

/-- Append rows one by one through `add_data`, failing when any append
raises (the constructor propagates the exception). -/
def addRows (t : Table) (rows : List (List Value)) : Option Table :=
  match rows with
  | [] => some t
  | r :: rest =>
    match t.add_data r with
    | (t', none) => addRows t' rest
    | (_, some _) => none

/-- `Table(columns=cols, data=rows)` on the expected list path:
`_init_from_list` builds the default column types and adds each row. -/
def buildTable (cols : List ColName) (rows : List (List Value)) : Option Table :=
  addRows (Table.initTable cols) rows

/-- Cell-by-cell comparison of one row of the left table against the
corresponding row of the right table (the `__eq__` inner loop walks the
left row's indices; a missing right cell would be a Python IndexError
and is treated as inequality). -/
def rowCellsEq : List Value → List Value → Bool
  | [], _ => true
  | a :: as', b :: bs => a = b && rowCellsEq as' bs
  | _ :: _, [] => false

/-- Row-by-row comparison of the data of two tables with equal row
counts. -/
def dataCellsEq : List (List Value) → List (List Value) → Bool
  | [], _ => true
  | ra :: ras, rb :: rbs => rowCellsEq ra rb && dataCellsEq ras rbs
  | _ :: _, [] => false

/-- `Table.__eq__`: same row count, same column sequence, same column
Record type, and cell-by-cell equal row data. -/
def Table.tableEq (a b : Table) : Bool :=
  if a.data.length ≠ b.data.length ∨ a.columns ≠ b.columns ∨
      a.column_types ≠ b.column_types then false
  else dataCellsEq a.data b.data

/-- JSON values, with arrays and objects encoded as cons-chains (an
ordered list of elements / an ordered string-keyed mapping). -/
inductive JValue where
  | jnum (n : Int)
  | jstr (s : String)
  | jbool (b : Bool)
  | jnull
  | jarrNil
  | jarrCons (v : JValue) (rest : JValue)
  | jobjNil
  | jobjCons (k : String) (v : JValue) (rest : JValue)
deriving DecidableEq, Repr

/-- Serialize a primitive cell (`util.json_friendly` is the identity on
this fragment). -/
def cellToJson : Value → JValue
  | .vnum n => .jnum n
  | .vstr s => .jstr s
  | .vbool b => .jbool b
  | .vnull => .jnull

/-- Read a primitive cell back from its JSON form (`Table.from_json`
keeps non-dict items as cells unchanged). -/
def jToCell : JValue → Option Value
  | .jnum n => some (.vnum n)
  | .jstr s => some (.vstr s)
  | .jbool b => some (.vbool b)
  | .jnull => some .vnull
  | _ => none

/-- Serialize one column name. -/
def colNameToJson : ColName → JValue
  | .str s => .jstr s
  | .int n => .jnum n

/-- Read one column name back. -/
def jToColName : JValue → Option ColName
  | .jstr s => some (.str s)
  | .jnum n => some (.int n)
  | _ => none

/-- Serialize the column list as a JSON array. -/
def colsToJson : List ColName → JValue
  | [] => .jarrNil
  | c :: rest => .jarrCons (colNameToJson c) (colsToJson rest)

/-- Read the column list back. -/
def jToCols : JValue → Option (List ColName)
  | .jarrNil => some []
  | .jarrCons v rest => do pure ((← jToColName v) :: (← jToCols rest))
  | _ => none

/-- Serialize one row of cells as a JSON array. -/
def rowToJson : List Value → JValue
  | [] => .jarrNil
  | v :: rest => .jarrCons (cellToJson v) (rowToJson rest)

/-- Read one row back. -/
def jToRow : JValue → Option (List Value)
  | .jarrNil => some []
  | .jarrCons v rest => do pure ((← jToCell v) :: (← jToRow rest))
  | _ => none

/-- Serialize the row data as a JSON array of arrays. -/
def dataToJson : List (List Value) → JValue
  | [] => .jarrNil
  | r :: rest => .jarrCons (rowToJson r) (dataToJson rest)

/-- Read the row data back. -/
def jToData : JValue → Option (List (List Value))
  | .jarrNil => some []
  | .jarrCons v rest => do pure ((← jToRow v) :: (← jToData rest))
  | _ => none

/-- Modelled from the spec: `TypeRegistry` serialization of a
TypeDescriptor (`to_json`): a constructor-discriminated JSON encoding,
one tagged array per variant; the registry contract is that every
variant round-trips through its JSON form. -/
def typeToJson : WBType → JValue
  | .unknown => .jarrCons (.jnum 0) .jarrNil
  | .invalid => .jarrCons (.jnum 1) .jarrNil
  | .const v => .jarrCons (.jnum 2) (.jarrCons (cellToJson v) .jarrNil)
  | .prim .number => .jarrCons (.jnum 3) .jarrNil
  | .prim .string => .jarrCons (.jnum 4) .jarrNil
  | .prim .boolean => .jarrCons (.jnum 5) .jarrNil
  | .prim .pnone => .jarrCons (.jnum 6) .jarrNil
  | .prim .binary => .jarrCons (.jnum 7) .jarrNil
  | .opt t => .jarrCons (.jnum 8) (.jarrCons (typeToJson t) .jarrNil)
  | .unionNil => .jarrCons (.jnum 9) .jarrNil
  | .unionCons t rest =>
    .jarrCons (.jnum 10) (.jarrCons (typeToJson t) (.jarrCons (typeToJson rest) .jarrNil))
  | .recNil => .jarrCons (.jnum 11) .jarrNil
  | .recCons n t rest =>
    .jarrCons (.jnum 12)
      (.jarrCons (colNameToJson n) (.jarrCons (typeToJson t) (.jarrCons (typeToJson rest) .jarrNil)))

/-- Modelled from the spec: `TypeRegistry.type_from_dict`, the inverse
reading of a serialized TypeDescriptor. -/
def typeFromJson : JValue → Option WBType
  | .jarrCons (.jnum 0) .jarrNil => some .unknown
  | .jarrCons (.jnum 1) .jarrNil => some .invalid
  | .jarrCons (.jnum 2) (.jarrCons v .jarrNil) => (jToCell v).map .const
  | .jarrCons (.jnum 3) .jarrNil => some (.prim .number)
  | .jarrCons (.jnum 4) .jarrNil => some (.prim .string)
  | .jarrCons (.jnum 5) .jarrNil => some (.prim .boolean)
  | .jarrCons (.jnum 6) .jarrNil => some (.prim .pnone)
  | .jarrCons (.jnum 7) .jarrNil => some (.prim .binary)
  | .jarrCons (.jnum 8) (.jarrCons p .jarrNil) => (typeFromJson p).map .opt
  | .jarrCons (.jnum 9) .jarrNil => some .unionNil
  | .jarrCons (.jnum 10) (.jarrCons h (.jarrCons tl .jarrNil)) =>
    match typeFromJson h, typeFromJson tl with
    | some a, some b => some (.unionCons a b)
    | _, _ => none
  | .jarrCons (.jnum 11) .jarrNil => some .recNil
  | .jarrCons (.jnum 12) (.jarrCons k (.jarrCons v (.jarrCons tl .jarrNil))) =>
    match jToColName k, typeFromJson v, typeFromJson tl with
    | some n, some a, some b => some (.recCons n a b)
    | _, _, _ => none
  | _ => none

/-- Python dict item assignment: replace the value of an existing key in
place, append a missing key at the end. -/
def setKey : List (String × JValue) → String → JValue → List (String × JValue)
  | [], k, v => [(k, v)]
  | (k', v') :: rest, k, v =>
    if k' = k then (k', v) :: rest else (k', v') :: setKey rest k v

/-- Python `dict.update`: fold item assignment over the new entries. -/
def updateObj (old new : List (String × JValue)) : List (String × JValue) :=
  new.foldl (fun acc kv => setKey acc kv.1 kv.2) old

/-- First-match association lookup (Python dict read; keys are unique,
so first match is the match). -/
def lookupKey : List (String × JValue) → String → Option JValue
  | [], _ => none
  | (k', v) :: rest, k => if k' = k then some v else lookupKey rest k

/-- The destination variants `Table.to_json` dispatches on:
`wandb_run.Run`, `wandb_artifacts.Artifact`, or anything else. -/
inductive Dest where
  | run
  | artifact
  | other
deriving DecidableEq, Repr

/-- Errors raised during serialization (`ValueError` payloads of
`Table.to_json`). -/
inductive SerError where
  | invalidColumnName (c : String)
  | unsupportedDest
deriving DecidableEq, Repr

/-- Row cap toward the mutable log destination. -/
def MAX_ROWS : Nat := 10000

/-- Row cap toward the immutable artifact manifest destination. -/
def MAX_ARTIFACT_ROWS : Nat := 200000

/-- `Table._to_table_json`: truncates the rows to the cap, logging a
warning (the Bool component) when rows were dropped. -/
def Table.toTableJson (t : Table) (maxRows : Nat) :
    (List ColName × List (List Value)) × Bool :=
  ((t.columns, t.data.take maxRows), decide (maxRows < t.data.length))

/-- The first string column name containing a period, if any
(artifact-bound tables must not contain periods in column names). -/
def firstPeriodCol : List ColName → Option String
  | [] => none
  | .str s :: rest =>
    if (s.toList.contains '.') then some s else firstPeriodCol rest
  | .int _ :: rest => firstPeriodCol rest

/-- `Table.to_json`: the `base` argument stands for the JSON dict
produced by `Media.to_json` (outside the verified source tree), which
the method updates in place.  Toward a run it adds the `table-file`
header fields; toward an artifact it first rejects period-containing
string column names, then truncates at `MAX_ARTIFACT_ROWS` (the Bool
component records the truncation warning), maps every cell to JSON and
adds the `table` payload fields; any other destination raises.  -/
def Table.to_json (t : Table) (base : List (String × JValue)) (dest : Dest) :
    Except SerError (List (String × JValue)) × Bool :=
  match dest with
  | .run =>
    (.ok (updateObj base
      [("_type", .jstr "table-file"),
       ("ncols", .jnum t.columns.length),
       ("nrows", .jnum t.data.length)]), false)
  | .artifact =>
    match firstPeriodCol t.columns with
    | some c => (.error (.invalidColumnName c), false)
    | none =>
      (.ok (updateObj base
        [("_type", .jstr "table"),
         ("columns", colsToJson t.columns),
         ("data", dataToJson (t.toTableJson MAX_ARTIFACT_ROWS).1.2),
         ("ncols", .jnum t.columns.length),
         ("nrows", .jnum (t.toTableJson MAX_ARTIFACT_ROWS).1.2.length),
         ("column_types", typeToJson t.column_types)]),
        (t.toTableJson MAX_ARTIFACT_ROWS).2)
  | .other => (.error .unsupportedDest, false)

/-- `Table.from_json`: reads columns and data back, rebuilds the table
through the constructor (re-adding every row), then overwrites the
column types with the deserialized `column_types` entry when present. -/
def Table.from_json (obj : List (String × JValue)) : Option Table := do
  let cols ← (lookupKey obj "columns").bind jToCols
  let rows ← (lookupKey obj "data").bind jToData
  let t ← buildTable cols rows
  match lookupKey obj "column_types" with
  | some tj => do
    let ct ← typeFromJson tj
    pure { t with column_types := ct }
  | none => pure t

/-- One entry of `PartitionedTable._loaded_part_entries`
(`_PartitionTablePartEntry`): the manifest path it was registered under
and the part table that `get_part` materializes from the source
artifact. -/
structure TPart where
  path : String
  table : Table
deriving DecidableEq, Repr

/-- `PartitionedTable`: a parts directory path plus the part entries in
insertion order (`_loaded_part_entries` is an insertion-ordered dict). -/
structure PTable where
  parts_path : String
  parts : List TPart
deriving DecidableEq, Repr

/-- Observable events of `PartitionedTable.iterrows`: a part's row data
being materialized (`get_part`), a row being yielded, and a part's row
data being evicted (`free`). -/
inductive TraceEv where
  | load (p : String)
  | yld (ndx : Nat)
  | free (p : String)
deriving DecidableEq, Repr

/-- Enumerate rows with indices starting at `ndx`. -/
def enumRows (ndx : Nat) : List (List Value) → List (Nat × List Value)
  | [] => []
  | r :: rest => (ndx, r) :: enumRows (ndx + 1) rest

/-- The loop of `PartitionedTable.iterrows`: walk the part entries in
order; each part is materialized (`get_part`), checked against the
columns of the first part, fully yielded with a continuous running
index, and freed; a column mismatch raises with the offending pair of
column lists (the loaded parts before it have already been yielded and
freed). -/
def iterGo : List TPart → Option (List ColName) → Nat →
    List TraceEv × List (Nat × List Value) × Option (List ColName × List ColName)
  | [], _, _ => ([], [], none)
  | p :: rest, cols, ndx =>
    if cols = none ∨ cols = some p.table.columns then
      (.load p.path ::
          ((enumRows ndx p.table.data).map (fun q => .yld q.1) ++ [.free p.path] ++
            (iterGo rest (some p.table.columns) (ndx + p.table.data.length)).1),
        enumRows ndx p.table.data ++
          (iterGo rest (some p.table.columns) (ndx + p.table.data.length)).2.1,
        (iterGo rest (some p.table.columns) (ndx + p.table.data.length)).2.2)
    else
      ([.load p.path], [], some (cols.getD [], p.table.columns))

/-- `PartitionedTable.iterrows`. -/
def PTable.iterrows (pt : PTable) :
    List TraceEv × List (Nat × List Value) × Option (List ColName × List ColName) :=
  iterGo pt.parts none 0

/-- One step of the resident-parts count: a materialization increments
it, an eviction decrements it, a yield leaves it unchanged. -/
def resStep (n : Int) : TraceEv → Int
  | .load _ => n + 1
  | .free _ => n - 1
  | .yld _ => n

/-- Number of parts resident in memory after a prefix of iteration
events: materializations minus evictions. -/
def residentAfter (evs : List TraceEv) : Int :=
  evs.foldl resStep 0

/-- Observable binding state of a rich value: the temp files staged so
far (`util.generate_id` modelled by a running counter), the currently
set staged file (`_set_file`), the number of registrations performed by
the base `Media.bind_to_run`, and the per-value readiness flag
(`is_bound`). -/
structure BindState where
  stagedPaths : List Nat
  boundFile : Option Nat
  registered : Nat
  ready : Bool
deriving DecidableEq, Repr

/-- Modelled from the spec: the base `Media.bind_to_run` (outside the
verified source tree).  Per the spec, registration is gated by the
per-value readiness flag: an already-ready value is not registered a
second time. -/
def mediaBindBase (s : BindState) : BindState :=
  if s.ready then s else { s with registered := s.registered + 1, ready := true }

/-- Writing the serialized payload to a fresh temp file and pointing the
value's staged file at it (`tmp_path = MEDIA_TMP + generate_id()`
followed by `_set_file`). -/
def stageFresh (s : BindState) : BindState :=
  let fresh := s.stagedPaths.length
  { s with stagedPaths := s.stagedPaths ++ [fresh], boundFile := some fresh }

/-- `Table.bind_to_run`: stages the (truncated) table JSON to a fresh
temp file, sets it as the value's file, and delegates to the base
binding, unconditionally. -/
def tableBind (s : BindState) : BindState :=
  mediaBindBase (stageFresh s)

/-- `Graph.bind_to_run`: stages the graph JSON to a fresh temp file and
sets it as the value's file, and only then returns early when the value
is already bound, otherwise delegates to the base binding. -/
def graphBind (s : BindState) : BindState :=
  let s' := stageFresh s
  if s'.ready then s' else mediaBindBase s'

/-! ## Helper lemmas -/

theorem typeOf_ne_invalid (v : Value) : typeOf v ≠ .invalid := by
  cases v <;> simp [typeOf]

/-- Narrowing preserves incompatibility: a value rejected by a
descriptor is still rejected after the descriptor has been narrowed by
any accepted value. -/
theorem assign_incompat_mono (t : WBType) (v w : Value)
    (hv : t.assign v = .invalid) (hw : t.assign w ≠ .invalid) :
    (t.assign w).assign v = .invalid := by
  induction t with
  | unknown => exact absurd hv (typeOf_ne_invalid v)
  | invalid => exact absurd rfl hw
  | const c =>
    by_cases hvc : v = c
    · simp [WBType.assign, hvc] at hv
    · by_cases hwc : w = c
      · simp [WBType.assign, hwc, hvc]
      · simp [WBType.assign, hwc] at hw
  | prim k =>
    by_cases hvc : typeOf v = .prim k
    · simp [WBType.assign, hvc] at hv
    · by_cases hwc : typeOf w = .prim k
      · simp [WBType.assign, hwc, hvc]
      · simp [WBType.assign, hwc] at hw
  | opt inner ih =>
    by_cases hvn : v = .vnull
    · simp [WBType.assign, hvn] at hv
    · by_cases hwn : w = .vnull
      · simpa [WBType.assign, hwn] using hv
      · simp only [WBType.assign, if_neg hvn] at hv
        by_cases hiv : inner.assign v = .invalid
        · simp only [WBType.assign, if_neg hwn] at hw ⊢
          by_cases hiw : inner.assign w = .invalid
          · simp [hiw] at hw
          · simp only [if_neg hiw, WBType.assign, if_neg hvn]
            have := ih hiv hiw
            simp [this]
        · simp [hiv] at hv
  | unionNil => simp [WBType.assign] at hv
  | unionCons m rest ihm ihr =>
    simp only [WBType.assign] at hv
    by_cases hmv : m.assign v = .invalid
    · by_cases hrv : rest.assign v = .invalid
      · simp only [WBType.assign] at hw ⊢
        by_cases hmw : m.assign w = .invalid
        · by_cases hrw : rest.assign w = .invalid
          · simp [hmw, hrw] at hw
          · simp only [if_pos hmw, if_neg hrw, WBType.assign]
            have hr := ihr hrv hrw
            simp [hmv, hr]
        · simp only [if_neg hmw, WBType.assign]
          have hm := ihm hmv hmw
          simp [hm, hrv]
      · simp [hmv, hrv] at hv
    · simp [hmv] at hv
  | recNil => exact absurd rfl hw
  | recCons n ty rest ihn ihr => exact absurd rfl hw

/-- A column value incompatible with the fresh cast descriptor makes the
cast fold fail, whatever compatible values it narrowed on the way. -/
theorem castNarrow_incompat (rows : List (List Value)) (wbtype : WBType) (ndx : Nat)
    (h : ∃ r ∈ rows, wbtype.assign (r.getD ndx .vnull) = .invalid) :
    ∃ v cur, castNarrow wbtype rows ndx = .inr (v, cur) := by
  induction rows generalizing wbtype with
  | nil => simp at h
  | cons r rest ih =>
    by_cases hr : wbtype.assign (r.getD ndx .vnull) = .invalid
    · exact ⟨r.getD ndx .vnull, wbtype, by simp only [castNarrow, if_pos hr]⟩
    · obtain ⟨r', hr', hinv⟩ := h
      rcases List.mem_cons.mp hr' with hr'' | hr''
      · exact absurd (hr'' ▸ hinv) hr
      · have hmono := assign_incompat_mono wbtype (r'.getD ndx .vnull) (r.getD ndx .vnull) hinv hr
        obtain ⟨v, cur, hc⟩ := ih (wbtype.assign (r.getD ndx .vnull)) ⟨r', hr'', hmono⟩
        exact ⟨v, cur, by simp only [castNarrow, if_neg hr]; exact hc⟩

theorem jToCell_cellToJson (v : Value) : jToCell (cellToJson v) = some v := by
  cases v <;> rfl

theorem jToColName_colNameToJson (c : ColName) :
    jToColName (colNameToJson c) = some c := by
  cases c <;> rfl

theorem jToCols_colsToJson (cs : List ColName) : jToCols (colsToJson cs) = some cs := by
  induction cs with
  | nil => rfl
  | cons c rest ih => simp [colsToJson, jToCols, jToColName_colNameToJson, ih]

theorem jToRow_rowToJson (r : List Value) : jToRow (rowToJson r) = some r := by
  induction r with
  | nil => rfl
  | cons v rest ih => simp [rowToJson, jToRow, jToCell_cellToJson, ih]

theorem jToData_dataToJson (rows : List (List Value)) :
    jToData (dataToJson rows) = some rows := by
  induction rows with
  | nil => rfl
  | cons r rest ih => simp [dataToJson, jToData, jToRow_rowToJson, ih]

theorem tf_const (v : JValue) :
    typeFromJson (.jarrCons (.jnum 2) (.jarrCons v .jarrNil)) = (jToCell v).map .const := rfl

theorem tf_opt (p : JValue) :
    typeFromJson (.jarrCons (.jnum 8) (.jarrCons p .jarrNil)) = (typeFromJson p).map .opt := rfl

theorem tf_union (h tl : JValue) :
    typeFromJson (.jarrCons (.jnum 10) (.jarrCons h (.jarrCons tl .jarrNil))) =
      match typeFromJson h, typeFromJson tl with
      | some a, some b => some (.unionCons a b)
      | _, _ => none := rfl

theorem tf_rec (k v tl : JValue) :
    typeFromJson (.jarrCons (.jnum 12) (.jarrCons k (.jarrCons v (.jarrCons tl .jarrNil)))) =
      match jToColName k, typeFromJson v, typeFromJson tl with
      | some n, some a, some b => some (.recCons n a b)
      | _, _, _ => none := rfl

/-- TypeDescriptor serialization round-trips every variant, as the
registry contract requires. -/
theorem typeFromJson_typeToJson (t : WBType) : typeFromJson (typeToJson t) = some t := by
  induction t with
  | unknown => rfl
  | invalid => rfl
  | const v => rw [typeToJson, tf_const, jToCell_cellToJson]; rfl
  | prim k => cases k <;> rfl
  | opt inner ih => rw [typeToJson, tf_opt, ih]; rfl
  | unionNil => rfl
  | unionCons m rest ihm ihr => rw [typeToJson, tf_union, ihm, ihr]
  | recNil => rfl
  | recCons n ty rest ihn ihr =>
    rw [typeToJson, tf_rec, jToColName_colNameToJson, ihn, ihr]

theorem lookupKey_setKey_self (l : List (String × JValue)) (k : String) (v : JValue) :
    lookupKey (setKey l k v) k = some v := by
  induction l with
  | nil => simp [setKey, lookupKey]
  | cons kv rest ih =>
    by_cases h : kv.1 = k
    · simp [setKey, h, lookupKey]
    · simp [setKey, h, lookupKey, ih]

theorem lookupKey_setKey_other (l : List (String × JValue)) (k k' : String) (v : JValue)
    (h : k' ≠ k) : lookupKey (setKey l k v) k' = lookupKey l k' := by
  induction l with
  | nil => simp [setKey, lookupKey, (Ne.symm h : k ≠ k')]
  | cons kv rest ih =>
    by_cases hk : kv.1 = k
    · subst hk
      simp only [setKey, if_pos rfl, lookupKey]
      by_cases hk' : kv.1 = k'
      · exact absurd hk'.symm h
      · simp [hk']
    · simp only [setKey, if_neg hk, lookupKey]
      by_cases hk' : kv.1 = k'
      · simp [hk']
      · simp [hk', ih]

theorem cast_fst_columns (t : Table) (c : ColName) (d : WBType) (o : Bool) :
    (t.cast c d o).1.columns = t.columns ∧ (t.cast c d o).1.data = t.data := by
  unfold Table.cast
  rcases t.columns.indexOf? c with _ | ndx
  · exact ⟨rfl, rfl⟩
  · simp only []
    rcases castNarrow (if o then WBType.opt d else d) t.data ndx with w | pair
    · exact ⟨rfl, rfl⟩
    · exact ⟨rfl, rfl⟩

theorem initTable_shape (cols : List ColName) :
    (Table.initTable cols).columns = cols ∧ (Table.initTable cols).data = [] := by
  unfold Table.initTable
  generalize hinit : ({ columns := cols, data := [], column_types := .recNil } : Table) = t0
  have : ∀ (cs : List ColName) (t : Table),
      (cs.foldl (fun t c => (t.cast c .unknown true).1) t).columns = t.columns ∧
      (cs.foldl (fun t c => (t.cast c .unknown true).1) t).data = t.data := by
    intro cs
    induction cs with
    | nil => intro t; exact ⟨rfl, rfl⟩
    | cons c rest ih =>
      intro t
      simp only [List.foldl_cons]
      obtain ⟨h1, h2⟩ := ih ((t.cast c .unknown true).1)
      obtain ⟨h3, h4⟩ := cast_fst_columns t c .unknown true
      exact ⟨h1.trans h3, h2.trans h4⟩
  obtain ⟨h1, h2⟩ := this cols t0
  constructor
  · rw [h1, ← hinit]
  · rw [h2, ← hinit]

theorem add_data_ok (t t' : Table) (r : List Value) (h : t.add_data r = (t', none)) :
    t'.columns = t.columns ∧ t'.data = t.data ++ [r] := by
  unfold Table.add_data at h
  split at h
  · simp at h
  · split at h
    · simp at h
    · obtain ⟨h1, -⟩ := Prod.mk.injEq .. ▸ h
      rw [← h1]
      exact ⟨rfl, rfl⟩

theorem addRows_ok (rows : List (List Value)) (t t' : Table)
    (h : addRows t rows = some t') :
    t'.columns = t.columns ∧ t'.data = t.data ++ rows := by
  induction rows generalizing t with
  | nil => simp [addRows] at h; simp [← h]
  | cons r rest ih =>
    unfold addRows at h
    rcases hd : t.add_data r with ⟨t₁, e⟩
    rw [hd] at h
    cases e with
    | none =>
      obtain ⟨h1, h2⟩ := add_data_ok t t₁ r hd
      obtain ⟨h3, h4⟩ := ih t₁ h
      refine ⟨h3.trans h1, ?_⟩
      rw [h4, h2, List.append_assoc]
      rfl
    | some e => simp at h

theorem addRows_take (rows : List (List Value)) (t t' : Table) (n : Nat)
    (h : addRows t rows = some t') :
    ∃ t'', addRows t (rows.take n) = some t'' := by
  induction rows generalizing t n with
  | nil => exact ⟨t, by simp [addRows]⟩
  | cons r rest ih =>
    cases n with
    | zero => exact ⟨t, by simp [addRows]⟩
    | succ n =>
      unfold addRows at h
      rcases hd : t.add_data r with ⟨t₁, e⟩
      rw [hd] at h
      cases e with
      | none =>
        obtain ⟨t'', h''⟩ := ih t₁ n h
        exact ⟨t'', by simpa [addRows, hd] using h''⟩
      | some e => simp at h

theorem rowCellsEq_refl (r : List Value) : rowCellsEq r r = true := by
  induction r with
  | nil => rfl
  | cons v rest ih => simp [rowCellsEq, ih]

theorem dataCellsEq_refl (rows : List (List Value)) : dataCellsEq rows rows = true := by
  induction rows with
  | nil => rfl
  | cons r rest ih => simp [dataCellsEq, rowCellsEq_refl, ih]

theorem rowCellsEq_iff (xs ys : List Value) (h : xs.length = ys.length) :
    rowCellsEq xs ys = true ↔ xs = ys := by
  induction xs generalizing ys with
  | nil => cases ys with
    | nil => simp [rowCellsEq]
    | cons y ys => simp at h
  | cons x xs ih =>
    cases ys with
    | nil => simp at h
    | cons y ys =>
      simp only [rowCellsEq, Bool.and_eq_true, decide_eq_true_eq]
      rw [ih ys (by simpa using h)]
      simp

theorem dataCellsEq_iff (as bs : List (List Value)) (n : Nat)
    (hlen : as.length = bs.length)
    (ha : ∀ a ∈ as, a.length = n) (hb : ∀ b ∈ bs, b.length = n) :
    dataCellsEq as bs = true ↔ as = bs := by
  induction as generalizing bs with
  | nil =>
    cases bs with
    | nil => simp [dataCellsEq]
    | cons b bs => simp at hlen
  | cons a as ih =>
    cases bs with
    | nil => simp at hlen
    | cons b bs =>
      simp only [dataCellsEq, Bool.and_eq_true]
      rw [rowCellsEq_iff a b (by rw [ha a (by simp), hb b (by simp)]),
        ih bs (by simpa using hlen) (fun x hx => ha x (by simp [hx]))
          (fun x hx => hb x (by simp [hx]))]
      simp

theorem enumRows_map_fst (rows : List (List Value)) (ndx : Nat) :
    (enumRows ndx rows).map Prod.fst = List.range' ndx rows.length := by
  induction rows generalizing ndx with
  | nil => rfl
  | cons r rest ih => simp [enumRows, List.range'_succ, ih]

theorem enumRows_map_snd (rows : List (List Value)) (ndx : Nat) :
    (enumRows ndx rows).map Prod.snd = rows := by
  induction rows generalizing ndx with
  | nil => rfl
  | cons r rest ih => simp [enumRows, ih]

theorem prefix_cons_cases {α : Type} (x : α) (xs pre : List α)
    (h : pre <+: x :: xs) : pre = [] ∨ ∃ pre', pre = x :: pre' ∧ pre' <+: xs := by
  cases pre with
  | nil => exact Or.inl rfl
  | cons y ys =>
    obtain ⟨suf, hsuf⟩ := h
    simp only [List.cons_append] at hsuf
    obtain ⟨h1, h2⟩ := List.cons.injEq .. ▸ hsuf
    exact Or.inr ⟨ys, by rw [h1], ⟨suf, h2⟩⟩

theorem prefix_append_cases {α : Type} (a b pre : List α)
    (h : pre <+: a ++ b) : pre <+: a ∨ ∃ m, pre = a ++ m ∧ m <+: b := by
  induction a generalizing pre with
  | nil => exact Or.inr ⟨pre, by simpa using h⟩
  | cons x xs ih =>
    rcases prefix_cons_cases x (xs ++ b) pre (by simpa using h) with h0 | ⟨pre', hp, hpre⟩
    · exact Or.inl (h0 ▸ List.nil_prefix)
    · rcases ih pre' hpre with h1 | ⟨m, hm, hmb⟩
      · exact Or.inl (hp ▸ (List.prefix_cons_inj x).mpr h1)
      · exact Or.inr ⟨m, by rw [hp, hm]; rfl, hmb⟩

theorem foldl_resStep_ylds (evs : List TraceEv) (n : Int)
    (h : ∀ e ∈ evs, ∃ i, e = TraceEv.yld i) : evs.foldl resStep n = n := by
  induction evs generalizing n with
  | nil => rfl
  | cons e rest ih =>
    obtain ⟨i, hi⟩ := h e (by simp)
    subst hi
    exact ih n (fun e he => h e (by simp [he]))

theorem enumRows_append (xs ys : List (List Value)) (ndx : Nat) :
    enumRows ndx (xs ++ ys) = enumRows ndx xs ++ enumRows (ndx + xs.length) ys := by
  induction xs generalizing ndx with
  | nil => simp [enumRows]
  | cons x xs ih =>
    show (ndx, x) :: enumRows (ndx + 1) (xs ++ ys)
        = (ndx, x) :: (enumRows (ndx + 1) xs ++ enumRows (ndx + (xs.length + 1)) ys)
    rw [ih (ndx + 1), show ndx + 1 + xs.length = ndx + (xs.length + 1) by omega]

/-- Every prefix of the iteration trace of a uniform-column part list
has at most one part resident, the iteration reports no error, and the
yields enumerate the concatenated part rows with a continuous index. -/
theorem iterGo_uniform (parts : List TPart) (c : List ColName)
    (hc : ∀ p ∈ parts, p.table.columns = c) (cols : Option (List ColName))
    (hcols : cols = none ∨ cols = some c) (ndx : Nat) :
    (iterGo parts cols ndx).2.2 = none ∧
    (iterGo parts cols ndx).2.1 =
      enumRows ndx (parts.map (fun p => p.table.data)).flatten ∧
    (∀ pre, pre <+: (iterGo parts cols ndx).1 → residentAfter pre ≤ 1) := by
  induction parts generalizing cols ndx with
  | nil =>
    refine ⟨rfl, rfl, ?_⟩
    intro pre hpre
    rw [List.prefix_nil.mp hpre]
    norm_num [residentAfter]
  | cons p rest ih =>
    have hpc : p.table.columns = c := hc p (by simp)
    have hcond : cols = none ∨ cols = some p.table.columns := by
      rcases hcols with h | h
      · exact Or.inl h
      · exact Or.inr (by rw [h, hpc])
    obtain ⟨ih1, ih2, ih3⟩ := ih (fun q hq => hc q (by simp [hq]))
      (some p.table.columns) (Or.inr (by rw [hpc])) (ndx + p.table.data.length)
    simp only [iterGo, if_pos hcond]
    have hylds : ∀ e ∈ (enumRows ndx p.table.data).map (fun q => TraceEv.yld q.1),
        ∃ i, e = TraceEv.yld i := by
      intro e he
      simp only [List.mem_map] at he
      obtain ⟨q, -, hq⟩ := he
      exact ⟨q.1, hq.symm⟩
    refine ⟨ih1, ?_, ?_⟩
    · rw [ih2]
      simp only [List.map_cons, List.flatten_cons]
      rw [enumRows_append]
    · intro pre hpre
      rcases prefix_cons_cases _ _ pre hpre with h0 | ⟨pre', hp, hpre'⟩
      · rw [h0]; norm_num [residentAfter]
      · subst hp
        rw [List.append_assoc] at hpre'
        rcases prefix_append_cases _ _ pre' hpre' with hy | ⟨m, hm, hmb⟩
        · have h1 : ∀ e ∈ pre', ∃ i, e = TraceEv.yld i :=
            fun e he => hylds e (hy.subset he)
          rw [residentAfter, List.foldl_cons, foldl_resStep_ylds pre' _ h1]
          norm_num [resStep]
        · subst hm
          rw [List.singleton_append] at hmb
          rcases prefix_cons_cases _ _ m hmb with hm0 | ⟨m', hm', hmb'⟩
          · subst hm0
            rw [residentAfter, List.foldl_cons, List.foldl_append,
              foldl_resStep_ylds _ _ hylds]
            norm_num [resStep]
          · subst hm'
            have hres : residentAfter
                (TraceEv.load p.path ::
                  ((enumRows ndx p.table.data).map (fun q => TraceEv.yld q.1) ++
                    TraceEv.free p.path :: m')) = residentAfter m' := by
              rw [residentAfter, residentAfter, List.foldl_cons, List.foldl_append,
                foldl_resStep_ylds _ _ hylds, List.foldl_cons]
              norm_num [resStep]
            rw [hres]
            exact ih3 m' hmb'

/-- Iterating a part list whose first diverging part follows a uniform
prefix yields exactly the prefix parts' rows and then reports the
schema mismatch against the diverging part. -/
theorem iterGo_mismatch (good : List TPart) (bad : TPart) (rest : List TPart)
    (c : List ColName) (hg : ∀ p ∈ good, p.table.columns = c)
    (hbad : bad.table.columns ≠ c) (ndx : Nat) :
    (iterGo (good ++ bad :: rest) (some c) ndx).2.2 = some (c, bad.table.columns) ∧
    (iterGo (good ++ bad :: rest) (some c) ndx).2.1 =
      enumRows ndx (good.map (fun p => p.table.data)).flatten := by
  induction good generalizing ndx with
  | nil =>
    have hcond : ¬(some c = none ∨ some c = some bad.table.columns) := by
      simp
      intro h
      exact hbad h.symm
    simp only [List.nil_append, iterGo, if_neg hcond]
    exact ⟨by simp, rfl⟩
  | cons p good ih =>
    have hpc : p.table.columns = c := hg p (by simp)
    have hcond : (some c : Option (List ColName)) = none ∨
        some c = some p.table.columns := Or.inr (by rw [hpc])
    obtain ⟨ih1, ih2⟩ := ih (fun q hq => hg q (by simp [hq])) (ndx + p.table.data.length)
    simp only [List.cons_append, iterGo]
    rw [if_pos hcond]
    constructor
    · simp only [hpc, List.append_eq]
      exact ih1
    · simp only [hpc, List.append_eq]
      rw [ih2]
      simp only [List.map_cons, List.flatten_cons]
      rw [enumRows_append]

theorem range_glue (s m n : Nat) :
    List.range' s m ++ List.range' (s + m) n = List.range' s (m + n) := by
  induction m generalizing s with
  | zero => simp
  | succ m ih =>
    rw [List.range'_succ, show m + 1 + n = (m + n) + 1 by omega, List.range'_succ,
      List.cons_append, show s + (m + 1) = (s + 1) + m by omega, ih (s + 1)]

/-! ## Claim theorems -/

/-- C1: for every Table `t` and argument tuple `cells`: if the lengths
differ, `add_data` raises a shape error and `t`'s rows and column-type
record are unchanged; if the lengths match but narrowing the column
Record type against the column-name to cell mapping yields Invalid,
`add_data` raises a type error carrying the `explain` diagnostic and
`t` is unchanged; otherwise `add_data` appends the row and commits the
narrowed Record type. -/
theorem add_data_spec (t : Table) (cells : List Value) :
    (cells.length ≠ t.columns.length →
      t.add_data cells = (t, some (.shapeError t.columns.length cells.length)))
  ∧ (cells.length = t.columns.length →
      dictAssign t.column_types (t.columns.zip cells) = .invalid →
      t.add_data cells =
        (t, some (.typeMismatch (explainDict t.column_types (t.columns.zip cells)))))
  ∧ (cells.length = t.columns.length →
      dictAssign t.column_types (t.columns.zip cells) ≠ .invalid →
      t.add_data cells =
        ({ columns := t.columns,
           data := t.data ++ [cells],
           column_types := dictAssign t.column_types (t.columns.zip cells) }, none)) := by
  refine ⟨fun h => ?_, fun h1 h2 => ?_, fun h1 h2 => ?_⟩
  · simp [Table.add_data, h]
  · simp [Table.add_data, h1, h2]
  · simp [Table.add_data, h1, h2]

/-- Example narrow table used by the concrete witnesses. -/
def exTable : Table :=
  { columns := [.str "a"],
    data := [],
    column_types := .recCons (.str "a") (.prim .number) .recNil }

theorem add_data_spec_witness :
    exTable.add_data [] = (exTable, some (.shapeError 1 0))
  ∧ exTable.add_data [.vstr "x"] =
      (exTable, some (.typeMismatch
        (explainDict exTable.column_types (exTable.columns.zip [.vstr "x"]))))
  ∧ exTable.add_data [.vnum 3] =
      ({ columns := [.str "a"],
         data := [[.vnum 3]],
         column_types := dictAssign exTable.column_types
           (exTable.columns.zip [.vnum 3]) }, none) :=
  ⟨(add_data_spec exTable []).1 (by decide),
   (add_data_spec exTable [.vstr "x"]).2.1 (by decide) (by decide),
   (add_data_spec exTable [.vnum 3]).2.2 (by decide) (by decide)⟩

/-- C7: two Tables are equal exactly when they have the same column
sequence, equal column TypeDescriptor records, the same number of rows,
and cell-by-cell equal row data (for well-formed tables, whose rows all
have one cell per column). -/
theorem tableEq_spec (t1 t2 : Table) (h1 : t1.wf) (h2 : t2.wf) :
    t1.tableEq t2 = true ↔
      (t1.columns = t2.columns ∧ t1.column_types = t2.column_types ∧
       t1.data.length = t2.data.length ∧ t1.data = t2.data) := by
  unfold Table.tableEq
  split
  · next h =>
    simp only [Bool.false_eq_true, false_iff]
    intro ⟨ha, hb, hc, hd⟩
    rcases h with h | h | h
    · exact h hc
    · exact h ha
    · exact h hb
  · next h =>
    push_neg at h
    obtain ⟨hlen, hcols, htys⟩ := h
    rw [dataCellsEq_iff t1.data t2.data t1.columns.length hlen h1
      (fun b hb => (h2 b hb).trans (congrArg List.length hcols.symm))]
    simp [hlen, hcols, htys]

theorem tableEq_spec_witness :
    (Table.mk [.str "a"] [[.vnum 1]] (.recCons (.str "a") (.prim .number) .recNil)).tableEq
      (Table.mk [.str "a"] [[.vnum 1]] (.recCons (.str "a") (.prim .number) .recNil)) = true :=
  (tableEq_spec _ _ (by decide) (by decide)).mpr ⟨rfl, rfl, rfl, rfl⟩

theorem lookupKey_updateObj_absent (new base : List (String × JValue)) (k : String)
    (h : k ∉ new.map Prod.fst) :
    lookupKey (updateObj base new) k = lookupKey base k := by
  induction new generalizing base with
  | nil => rfl
  | cons kv rest ih =>
    simp only [List.map_cons, List.mem_cons] at h
    push_neg at h
    show lookupKey (updateObj (setKey base kv.1 kv.2) rest) k = lookupKey base k
    rw [ih (setKey base kv.1 kv.2) h.2,
      lookupKey_setKey_other base kv.1 k kv.2 h.1]

theorem lookupKey_updateObj_mem (new base : List (String × JValue)) (k : String)
    (v : JValue) (hnd : (new.map Prod.fst).Nodup) (hmem : (k, v) ∈ new) :
    lookupKey (updateObj base new) k = some v := by
  induction new generalizing base with
  | nil => simp at hmem
  | cons kv rest ih =>
    simp only [List.map_cons, List.nodup_cons] at hnd
    rcases List.mem_cons.mp hmem with heq | hrest
    · have hk : kv.1 = k := by rw [← heq]
      have hknot : k ∉ rest.map Prod.fst := hk ▸ hnd.1
      show lookupKey (updateObj (setKey base kv.1 kv.2) rest) k = some v
      rw [lookupKey_updateObj_absent rest _ k hknot, hk, ← heq,
        lookupKey_setKey_self]
    · show lookupKey (updateObj (setKey base kv.1 kv.2) rest) k = some v
      exact ih _ hnd.2 hrest

/-- C8: toward a run destination `to_json` produces `table-file` with
integer `ncols`/`nrows` on top of the media base fields (which are
preserved); toward an artifact destination (with legal column names) it
produces `table` with `columns`, `data`, `ncols`, `nrows` and the
serialized `column_types`; any other destination raises the unsupported
destination error. -/
theorem to_json_shapes (t : Table) (base : List (String × JValue)) :
    (∃ obj, t.to_json base .run = (.ok obj, false) ∧
      lookupKey obj "_type" = some (.jstr "table-file") ∧
      lookupKey obj "ncols" = some (.jnum t.columns.length) ∧
      lookupKey obj "nrows" = some (.jnum t.data.length) ∧
      ∀ k, k ∉ ["_type", "ncols", "nrows"] → lookupKey obj k = lookupKey base k)
  ∧ (firstPeriodCol t.columns = none →
      ∃ obj, (t.to_json base .artifact).1 = .ok obj ∧
        lookupKey obj "_type" = some (.jstr "table") ∧
        lookupKey obj "columns" = some (colsToJson t.columns) ∧
        lookupKey obj "data" = some (dataToJson (t.data.take MAX_ARTIFACT_ROWS)) ∧
        lookupKey obj "ncols" = some (.jnum t.columns.length) ∧
        lookupKey obj "nrows" = some (.jnum (t.data.take MAX_ARTIFACT_ROWS).length) ∧
        lookupKey obj "column_types" = some (typeToJson t.column_types) ∧
        (∀ k, k ∉ ["_type", "columns", "data", "ncols", "nrows", "column_types"] →
          lookupKey obj k = lookupKey base k))
  ∧ t.to_json base .other = (.error .unsupportedDest, false) := by
  refine ⟨?_, fun hp => ?_, rfl⟩
  · refine ⟨_, rfl, ?_, ?_, ?_, ?_⟩
    · exact lookupKey_updateObj_mem _ base _ _ (by simp) (by simp)
    · exact lookupKey_updateObj_mem _ base _ _ (by simp) (by simp)
    · exact lookupKey_updateObj_mem _ base _ _ (by simp) (by simp)
    · intro k hk
      simp only [List.mem_cons, List.not_mem_nil, or_false, not_or] at hk
      exact lookupKey_updateObj_absent _ base k (by
        simp only [List.map_cons, List.map_nil, List.mem_cons, List.not_mem_nil]
        tauto)
  · simp only [Table.to_json, hp, Table.toTableJson]
    refine ⟨_, rfl, ?_, ?_, ?_, ?_, ?_, ?_, ?_⟩
    · exact lookupKey_updateObj_mem _ base _ _ (by simp) (by simp)
    · exact lookupKey_updateObj_mem _ base _ _ (by simp) (by simp)
    · exact lookupKey_updateObj_mem _ base _ _ (by simp) (by simp)
    · exact lookupKey_updateObj_mem _ base _ _ (by simp) (by simp)
    · exact lookupKey_updateObj_mem _ base _ _ (by simp) (by simp)
    · exact lookupKey_updateObj_mem _ base _ _ (by simp) (by simp)
    · intro k hk
      simp only [List.mem_cons, List.not_mem_nil, or_false, not_or] at hk
      exact lookupKey_updateObj_absent _ base k (by
        simp only [List.map_cons, List.map_nil, List.mem_cons, List.not_mem_nil]
        tauto)

theorem to_json_shapes_witness :
    (∃ obj, exTable.to_json [] .run = (.ok obj, false) ∧
      lookupKey obj "_type" = some (.jstr "table-file") ∧
      lookupKey obj "ncols" = some (.jnum exTable.columns.length) ∧
      lookupKey obj "nrows" = some (.jnum exTable.data.length) ∧
      ∀ k, k ∉ ["_type", "ncols", "nrows"] → lookupKey obj k = lookupKey [] k)
  ∧ (∃ obj, (exTable.to_json [] .artifact).1 = .ok obj ∧
      lookupKey obj "_type" = some (.jstr "table") ∧
      lookupKey obj "columns" = some (colsToJson exTable.columns) ∧
      lookupKey obj "data" = some (dataToJson (exTable.data.take MAX_ARTIFACT_ROWS)) ∧
      lookupKey obj "ncols" = some (.jnum exTable.columns.length) ∧
      lookupKey obj "nrows" = some (.jnum (exTable.data.take MAX_ARTIFACT_ROWS).length) ∧
      lookupKey obj "column_types" = some (typeToJson exTable.column_types) ∧
      (∀ k, k ∉ ["_type", "columns", "data", "ncols", "nrows", "column_types"] →
        lookupKey obj k = lookupKey [] k))
  ∧ exTable.to_json [] .other = (.error .unsupportedDest, false) :=
  ⟨(to_json_shapes exTable []).1,
   (to_json_shapes exTable []).2.1 (by decide),
   (to_json_shapes exTable []).2.2⟩

/-- C2: serialization truncates to the destination's cap (MAX_ROWS
toward the mutable log, MAX_ARTIFACT_ROWS toward the artifact manifest),
keeping the prefix and warning instead of raising; a table of 200001
rows serialized to an artifact reports nrows = 200000 with a warning. -/
theorem truncation_caps (t : Table) (base : List (String × JValue))
    (hp : firstPeriodCol t.columns = none) :
    ((t.toTableJson MAX_ROWS).1.2 = t.data.take MAX_ROWS)
  ∧ ((t.toTableJson MAX_ROWS).2 = decide (MAX_ROWS < t.data.length))
  ∧ ((t.toTableJson MAX_ARTIFACT_ROWS).1.2 = t.data.take MAX_ARTIFACT_ROWS)
  ∧ ((t.toTableJson MAX_ARTIFACT_ROWS).2 = decide (MAX_ARTIFACT_ROWS < t.data.length))
  ∧ (t.data.length = 200001 →
      ∃ obj, (t.to_json base .artifact).1 = .ok obj ∧
        lookupKey obj "nrows" = some (.jnum 200000) ∧
        (t.to_json base .artifact).2 = true) := by
  refine ⟨rfl, rfl, rfl, rfl, fun hlen => ?_⟩
  have htake : (t.data.take MAX_ARTIFACT_ROWS).length = 200000 := by
    simp [List.length_take, hlen, MAX_ARTIFACT_ROWS]
  simp only [Table.to_json, hp, Table.toTableJson]
  refine ⟨_, rfl, ?_, ?_⟩
  · rw [htake]
    exact lookupKey_updateObj_mem _ base _ _ (by simp) (by simp)
  · simp [hlen, MAX_ARTIFACT_ROWS]

/-- Table of 200001 rows used by the truncation witness. -/
def bigTable : Table :=
  { columns := [.str "a"],
    data := List.replicate 200001 [.vnum 0],
    column_types := .recCons (.str "a") (.prim .number) .recNil }

theorem truncation_caps_witness :
    ∃ obj, (bigTable.to_json [] .artifact).1 = .ok obj ∧
      lookupKey obj "nrows" = some (.jnum 200000) ∧
      (bigTable.to_json [] .artifact).2 = true :=
  (truncation_caps bigTable [] (by rfl)).2.2.2.2
    (by rw [show bigTable.data = List.replicate 200001 [Value.vnum 0] from rfl,
      List.length_replicate])

/-- C10: toward an artifact destination, a string column name containing
a period makes `to_json` raise before producing any JSON (and without
any truncation warning); the same table still serializes toward a run
destination. -/
theorem artifact_period_column (t : Table) (base : List (String × JValue))
    (s : String) (hp : firstPeriodCol t.columns = some s) :
    (t.to_json base .artifact).1 = .error (.invalidColumnName s)
  ∧ (t.to_json base .artifact).2 = false
  ∧ ∃ obj, t.to_json base .run = (.ok obj, false) := by
  refine ⟨?_, ?_, ⟨_, rfl⟩⟩
  · simp [Table.to_json, hp]
  · simp [Table.to_json, hp]

/-- Table with a period-containing column name used by the witness. -/
def dottedTable : Table :=
  { columns := [.str "a.b"],
    data := [],
    column_types := .recCons (.str "a.b") (.opt .unknown) .recNil }

theorem artifact_period_column_witness :
    (dottedTable.to_json [] .artifact).1 = .error (.invalidColumnName "a.b")
  ∧ (dottedTable.to_json [] .artifact).2 = false
  ∧ ∃ obj, dottedTable.to_json [] .run = (.ok obj, false) :=
  artifact_period_column dottedTable [] "a.b" (by decide)

/-- C3 (amended): deserializing the JSON produced by serializing a
table to an artifact yields a Table equal (under Table equality) to the
truncated prefix of the original - and equal to the original itself
when no truncation occurred - exactly for the tables whose rows the
constructor re-accepts (`from_json` rebuilds through
`Table(columns, data)`, re-validating every row with fresh
`Optional(Unknown)` column types); the counterexample below shows the
unrestricted claim false. -/
theorem addRows_cons_ok (t t1 : Table) (r : List Value) (rest : List (List Value))
    (h : t.add_data r = (t1, none)) : addRows t (r :: rest) = addRows t1 rest := by
  simp only [addRows, h]

theorem addRows_cons_err (t t1 : Table) (e : TableError) (r : List Value)
    (rest : List (List Value)) (h : t.add_data r = (t1, some e)) :
    addRows t (r :: rest) = none := by
  simp only [addRows, h]

/-- The two-member union descriptor a column reaches after accepting a
number and then a string. -/
def mixedUnion : WBType := .unionCons (.prim .number) (.unionCons (.prim .string) .unionNil)

/-- Once a column's descriptor is the number-or-string union, adding
another number row narrows the union member to itself: the column type
is stable and the row is accepted. -/
theorem add_data_stable (t : Table) (hcols : t.columns = [.str "a"])
    (hty : t.column_types = .recCons (.str "a") mixedUnion .recNil) :
    t.add_data [.vnum 0] = ({ t with data := t.data ++ [[.vnum 0]] }, none) := by
  have hda : dictAssign (.recCons (.str "a") mixedUnion .recNil)
      ([ColName.str "a"].zip [Value.vnum 0]) = .recCons (.str "a") mixedUnion .recNil := by
    decide
  simp only [Table.add_data, hcols, hty, hda]
  simp [hcols, hty]

/-- Adding any number of number rows to a union-typed column succeeds
and leaves the column type unchanged. -/
theorem addRows_mixStable (n : Nat) : ∀ (t : Table), t.columns = [.str "a"] →
    t.column_types = .recCons (.str "a") mixedUnion .recNil →
    addRows t (List.replicate n [.vnum 0]) =
      some { t with data := t.data ++ List.replicate n [.vnum 0] } := by
  induction n with
  | zero =>
    intro t h1 h2
    simp [addRows]
  | succ n ih =>
    intro t h1 h2
    rw [List.replicate_succ, addRows_cons_ok t _ _ _ (add_data_stable t h1 h2),
      ih { t with data := t.data ++ [[.vnum 0]] } h1 h2]
    rw [Option.some.injEq, Table.mk.injEq]
    refine ⟨rfl, ?_, rfl⟩
    rw [List.append_assoc, List.singleton_append]

/-- A fresh table with one column typed as the empty union: every value
widens the union, so mixed-typed rows are accepted. -/
def mixStart : Table :=
  { columns := [.str "a"], data := [], column_types := .recCons (.str "a") .unionNil .recNil }

/-- `mixStart` after accepting the number row. -/
def mixT1 : Table :=
  { columns := [.str "a"], data := [[.vnum 1]],
    column_types := .recCons (.str "a") (.unionCons (.prim .number) .unionNil) .recNil }

/-- `mixT1` after accepting the string row. -/
def mixT2 : Table :=
  { columns := [.str "a"], data := [[.vnum 1], [.vstr "x"]],
    column_types := .recCons (.str "a") mixedUnion .recNil }

/-- 200001 rows: a number, a string, then 199999 more numbers. -/
def bigMixData : List (List Value) :=
  [.vnum 1] :: [.vstr "x"] :: List.replicate 199999 [.vnum 0]

/-- The union-typed mixed-value table with 200001 rows that refutes the
round-trip claim as frozen. -/
def bigMixTable : Table :=
  { columns := [.str "a"], data := bigMixData,
    column_types := .recCons (.str "a") mixedUnion .recNil }

/-- The state the default constructor reaches after re-accepting the
number row during `from_json`'s rebuild. -/
def mixB1 : Table :=
  { columns := [.str "a"], data := [[.vnum 1]],
    column_types := .recCons (.str "a") (.opt (.prim .number)) .recNil }

theorem table_json_roundtrip (t : Table) (base : List (String × JValue))
    (hp : firstPeriodCol t.columns = none)
    (hb : (buildTable t.columns t.data).isSome) :
    ∃ obj t', (t.to_json base .artifact).1 = .ok obj ∧
      Table.from_json obj = some t' ∧
      t'.tableEq { t with data := t.data.take MAX_ARTIFACT_ROWS } = true ∧
      (t.data.length ≤ MAX_ARTIFACT_ROWS → t'.tableEq t = true) := by
  obtain ⟨tb, htb⟩ := Option.isSome_iff_exists.mp hb
  obtain ⟨tb', htb'⟩ := addRows_take t.data (Table.initTable t.columns) tb
    MAX_ARTIFACT_ROWS htb
  obtain ⟨hcols', hdata'⟩ := addRows_ok _ _ _ htb'
  obtain ⟨hic, hid⟩ := initTable_shape t.columns
  have hcols2 : tb'.columns = t.columns := hcols'.trans hic
  have hdata2 : tb'.data = t.data.take MAX_ARTIFACT_ROWS := by
    rw [hdata', hid, List.nil_append]
  simp only [Table.to_json, hp, Table.toTableJson]
  refine ⟨_, { tb' with column_types := t.column_types }, rfl, ?_, ?_, ?_⟩
  · have h1 : lookupKey (updateObj base
        [("_type", JValue.jstr "table"),
         ("columns", colsToJson t.columns),
         ("data", dataToJson (t.data.take MAX_ARTIFACT_ROWS)),
         ("ncols", JValue.jnum t.columns.length),
         ("nrows", JValue.jnum ((t.data.take MAX_ARTIFACT_ROWS).length : Int)),
         ("column_types", typeToJson t.column_types)]) "columns"
        = some (colsToJson t.columns) :=
      lookupKey_updateObj_mem _ base _ _ (by simp) (by simp)
    have h2 : lookupKey (updateObj base
        [("_type", JValue.jstr "table"),
         ("columns", colsToJson t.columns),
         ("data", dataToJson (t.data.take MAX_ARTIFACT_ROWS)),
         ("ncols", JValue.jnum t.columns.length),
         ("nrows", JValue.jnum ((t.data.take MAX_ARTIFACT_ROWS).length : Int)),
         ("column_types", typeToJson t.column_types)]) "data"
        = some (dataToJson (t.data.take MAX_ARTIFACT_ROWS)) :=
      lookupKey_updateObj_mem _ base _ _ (by simp) (by simp)
    have h3 : lookupKey (updateObj base
        [("_type", JValue.jstr "table"),
         ("columns", colsToJson t.columns),
         ("data", dataToJson (t.data.take MAX_ARTIFACT_ROWS)),
         ("ncols", JValue.jnum t.columns.length),
         ("nrows", JValue.jnum ((t.data.take MAX_ARTIFACT_ROWS).length : Int)),
         ("column_types", typeToJson t.column_types)]) "column_types"
        = some (typeToJson t.column_types) :=
      lookupKey_updateObj_mem _ base _ _ (by simp) (by simp)
    simp only [Table.from_json, h1, h2, h3, Option.bind_eq_bind, Option.some_bind,
      jToCols_colsToJson, jToData_dataToJson, typeFromJson_typeToJson, buildTable, htb']
    rfl
  · unfold Table.tableEq
    rw [if_neg]
    · show dataCellsEq tb'.data (t.data.take MAX_ARTIFACT_ROWS) = true
      rw [hdata2]
      exact dataCellsEq_refl _
    · push_neg
      exact ⟨congrArg List.length hdata2, hcols2, rfl⟩
  · intro hle
    have hdata3 : tb'.data = t.data := by rw [hdata2, List.take_of_length_le hle]
    unfold Table.tableEq
    rw [if_neg]
    · show dataCellsEq tb'.data t.data = true
      rw [hdata3]
      exact dataCellsEq_refl _
    · push_neg
      exact ⟨congrArg List.length hdata3, hcols2, rfl⟩

/-- Buildable one-row table used by the round-trip witness. -/
def rtTable : Table :=
  { columns := [.str "a"],
    data := [[.vnum 1]],
    column_types := .recCons (.str "a") (.opt (.prim .number)) .recNil }

theorem table_json_roundtrip_witness :
    ∃ obj t', (rtTable.to_json [] .artifact).1 = .ok obj ∧
      Table.from_json obj = some t' ∧
      t'.tableEq { rtTable with data := rtTable.data.take MAX_ARTIFACT_ROWS } = true ∧
      (rtTable.data.length ≤ MAX_ARTIFACT_ROWS → t'.tableEq rtTable = true) :=
  table_json_roundtrip rtTable [] (by decide) (by decide)

theorem take_two_cons {α : Type} (a b : α) (l : List α) (n : Nat) :
    (a :: b :: l).take (n + 2) = a :: b :: l.take n := rfl

/-- Rebuilding a table through the default constructor fails on any row
list that starts with a number row followed by a string row: the first
row narrows the column from `Optional(Unknown)` to optional number, so
the second row is rejected whatever follows. -/
theorem from_json_mixed_fails (rows : List (List Value)) (v1 v2 v3 v4 : JValue) :
    Table.from_json (updateObj []
      [("_type", v1),
       ("columns", colsToJson [ColName.str "a"]),
       ("data", dataToJson ([Value.vnum 1] :: [Value.vstr "x"] :: rows)),
       ("ncols", v2),
       ("nrows", v3),
       ("column_types", v4)]) = none := by
  have hb1 : (Table.initTable [ColName.str "a"]).add_data [Value.vnum 1]
      = (mixB1, none) := by decide
  have hb2 : mixB1.add_data [Value.vstr "x"]
      = (mixB1, some (.typeMismatch "column a cannot accept value")) := by decide
  have hbuild : buildTable [ColName.str "a"]
      ([Value.vnum 1] :: [Value.vstr "x"] :: rows) = none := by
    unfold buildTable
    rw [addRows_cons_ok _ _ _ _ hb1, addRows_cons_err _ _ _ _ _ hb2]
  have h1 : lookupKey (updateObj []
      [("_type", v1),
       ("columns", colsToJson [ColName.str "a"]),
       ("data", dataToJson ([Value.vnum 1] :: [Value.vstr "x"] :: rows)),
       ("ncols", v2),
       ("nrows", v3),
       ("column_types", v4)]) "columns" = some (colsToJson [ColName.str "a"]) :=
    lookupKey_updateObj_mem _ [] _ _ (by simp) (by simp)
  have h2 : lookupKey (updateObj []
      [("_type", v1),
       ("columns", colsToJson [ColName.str "a"]),
       ("data", dataToJson ([Value.vnum 1] :: [Value.vstr "x"] :: rows)),
       ("ncols", v2),
       ("nrows", v3),
       ("column_types", v4)]) "data"
      = some (dataToJson ([Value.vnum 1] :: [Value.vstr "x"] :: rows)) :=
    lookupKey_updateObj_mem _ [] _ _ (by simp) (by simp)
  simp only [Table.from_json, h1, h2, Option.bind_eq_bind, Option.some_bind,
    jToCols_colsToJson, jToData_dataToJson, hbuild, Option.none_bind]

/-- C3 counterexample: a union-typed column accepts mixed values (a
number, a string, then 199999 more numbers - 200001 rows, within the
claim's scope), the table serializes to an artifact, but deserializing
that JSON reproduces no table at all: the constructor re-validates the
rows with fresh `Optional(Unknown)` column types and rejects the string
after having narrowed the column to numbers, so `from_json` raises
instead of yielding a Table equal to the truncated prefix. -/
theorem table_json_roundtrip_counterexample :
    addRows mixStart bigMixData = some bigMixTable
  ∧ bigMixData.length = 200001
  ∧ (∃ obj, (bigMixTable.to_json [] .artifact).1 = .ok obj ∧
      Table.from_json obj = none) := by
  refine ⟨?_, ?_, ?_⟩
  · have s1 : mixStart.add_data [.vnum 1] = (mixT1, none) := by decide
    have s2 : mixT1.add_data [.vstr "x"] = (mixT2, none) := by decide
    rw [show bigMixData
        = [Value.vnum 1] :: [Value.vstr "x"] :: List.replicate 199999 [Value.vnum 0]
        from rfl,
      addRows_cons_ok _ _ _ _ s1, addRows_cons_ok _ _ _ _ s2,
      addRows_mixStable 199999 mixT2 rfl rfl]
    rfl
  · show ([Value.vnum 1] :: [Value.vstr "x"] ::
      List.replicate 199999 [Value.vnum 0]).length = 200001
    rw [List.length_cons, List.length_cons, List.length_replicate]
  · have hp : firstPeriodCol [ColName.str "a"] = none := by decide
    have htake : bigMixData.take MAX_ARTIFACT_ROWS
        = [Value.vnum 1] :: [Value.vstr "x"] ::
            (List.replicate 199999 ([Value.vnum 0] : List Value)).take 199998 := by
      rw [show MAX_ARTIFACT_ROWS = 199998 + 2 by norm_num [MAX_ARTIFACT_ROWS],
        show bigMixData
          = [Value.vnum 1] :: [Value.vstr "x"] :: List.replicate 199999 [Value.vnum 0]
          from rfl,
        take_two_cons]
    simp only [Table.to_json, hp, Table.toTableJson, bigMixTable]
    refine ⟨_, rfl, ?_⟩
    rw [htake]
    exact from_json_mixed_fails _ _ _ _ _

/-- C4: iterating a PartitionedTable whose parts all carry the same
columns raises no error, yields the continuous index sequence
0..total_rows-1 with no gaps across part boundaries, and at every point
of the iteration at most one part's row data is materialized (every
prefix of the load/yield/free trace has at most one loaded part). -/
theorem iterrows_uniform_spec (pt : PTable) (c : List ColName)
    (hc : ∀ p ∈ pt.parts, p.table.columns = c) :
    pt.iterrows.2.2 = none ∧
    pt.iterrows.2.1.map Prod.fst =
      List.range ((pt.parts.map (fun p => p.table.data.length)).sum) ∧
    pt.iterrows.2.1.map Prod.snd = (pt.parts.map (fun p => p.table.data)).flatten ∧
    (∀ pre, pre <+: pt.iterrows.1 → residentAfter pre ≤ 1) := by
  obtain ⟨h1, h2, h3⟩ := iterGo_uniform pt.parts c hc none (Or.inl rfl) 0
  refine ⟨h1, ?_, ?_, h3⟩
  · rw [PTable.iterrows, h2, enumRows_map_fst, List.range_eq_range']
    congr 1
    rw [List.length_flatten, List.map_map]
    simp only [Function.comp_def]
  · rw [PTable.iterrows, h2, enumRows_map_snd]

/-- Two-part table used by the iteration witnesses. -/
def exPTable : PTable :=
  { parts_path := "parts",
    parts :=
      [⟨"p0", ⟨[.str "a"], [[.vnum 1], [.vnum 2]],
        .recCons (.str "a") (.opt (.prim .number)) .recNil⟩⟩,
       ⟨"p1", ⟨[.str "a"], [[.vnum 3]],
        .recCons (.str "a") (.opt (.prim .number)) .recNil⟩⟩] }

theorem iterrows_uniform_spec_witness :
    exPTable.iterrows.2.2 = none ∧
    exPTable.iterrows.2.1.map Prod.fst =
      List.range ((exPTable.parts.map (fun p => p.table.data.length)).sum) ∧
    exPTable.iterrows.2.1.map Prod.snd =
      (exPTable.parts.map (fun p => p.table.data)).flatten ∧
    (∀ pre, pre <+: exPTable.iterrows.1 → residentAfter pre ≤ 1) :=
  iterrows_uniform_spec exPTable [.str "a"] (by decide)

/-- C9: iterating a PartitionedTable whose parts diverge raises the
schema-mismatch error at the first part whose columns differ from the
first part's, after yielding all rows of the preceding parts. -/
theorem iterrows_mismatch_spec (pt : PTable) (p₀ : TPart) (good : List TPart)
    (bad : TPart) (rest : List TPart)
    (hparts : pt.parts = p₀ :: (good ++ bad :: rest))
    (hgood : ∀ p ∈ p₀ :: good, p.table.columns = p₀.table.columns)
    (hbad : bad.table.columns ≠ p₀.table.columns) :
    pt.iterrows.2.2 = some (p₀.table.columns, bad.table.columns) ∧
    pt.iterrows.2.1.map Prod.fst =
      List.range (((p₀ :: good).map (fun p => p.table.data.length)).sum) ∧
    pt.iterrows.2.1.map Prod.snd = ((p₀ :: good).map (fun p => p.table.data)).flatten := by
  obtain ⟨h1, h2⟩ := iterGo_mismatch good bad rest p₀.table.columns
    (fun p hp => hgood p (by simp [hp])) hbad (0 + p₀.table.data.length)
  have hcond : (none : Option (List ColName)) = none ∨
      (none : Option (List ColName)) = some p₀.table.columns := Or.inl rfl
  have hunfold : pt.iterrows = iterGo (p₀ :: (good ++ bad :: rest)) none 0 := by
    rw [PTable.iterrows, hparts]
  rw [hunfold, iterGo, if_pos hcond]
  refine ⟨h1, ?_, ?_⟩
  · rw [h2, List.map_append, enumRows_map_fst, enumRows_map_fst,
      List.length_flatten, List.map_map]
    simp only [Function.comp_def, List.map_cons, List.sum_cons]
    rw [List.range_eq_range', range_glue]
  · rw [h2, List.map_append, enumRows_map_snd, enumRows_map_snd,
      List.map_cons, List.flatten_cons]

/-- Two-part table with diverging columns used by the mismatch witness. -/
def badPTable : PTable :=
  { parts_path := "parts",
    parts :=
      [⟨"p0", ⟨[.str "a"], [[.vnum 1]],
        .recCons (.str "a") (.opt (.prim .number)) .recNil⟩⟩,
       ⟨"p1", ⟨[.str "b"], [[.vnum 2]],
        .recCons (.str "b") (.opt (.prim .number)) .recNil⟩⟩] }

theorem iterrows_mismatch_spec_witness :
    badPTable.iterrows.2.2 = some ([.str "a"], [.str "b"]) ∧
    badPTable.iterrows.2.1.map Prod.fst = List.range 1 ∧
    badPTable.iterrows.2.1.map Prod.snd = [[.vnum 1]] :=
  iterrows_mismatch_spec badPTable ⟨"p0", ⟨[.str "a"], [[.vnum 1]],
      .recCons (.str "a") (.opt (.prim .number)) .recNil⟩⟩ []
    ⟨"p1", ⟨[.str "b"], [[.vnum 2]],
      .recCons (.str "b") (.opt (.prim .number)) .recNil⟩⟩ []
    rfl (by decide) (by decide)

/-- C6: casting a column to a descriptor incompatible with at least one
existing value in that column raises the type-narrowing error and
leaves the table - in particular its column-type record - unchanged;
and cast, whatever its outcome, never drops or modifies rows. -/
theorem cast_incompatible_spec (t : Table) (col : ColName) (dtype : WBType)
    (optional : Bool) (ndx : Nat) (hnd : t.columns.indexOf? col = some ndx) :
    ((∃ r ∈ t.data,
        (if optional then WBType.opt dtype else dtype).assign (r.getD ndx .vnull)
          = .invalid) →
      ∃ v cur, t.cast col dtype optional = (t, some (.castIncompatible v (typeOf v) cur)))
  ∧ (∀ t' e, t.cast col dtype optional = (t', e) →
      t'.data = t.data ∧ t'.columns = t.columns) := by
  constructor
  · intro hbad
    obtain ⟨v, cur, hc⟩ := castNarrow_incompat t.data
      (if optional then WBType.opt dtype else dtype) ndx hbad
    refine ⟨v, cur, ?_⟩
    simp only [Table.cast, hnd, hc]
  · intro t' e h
    simp only [Table.cast, hnd] at h
    rcases hcn : castNarrow (if optional then WBType.opt dtype else dtype) t.data ndx
      with w | pair
    · simp only [hcn] at h
      obtain ⟨h1, -⟩ := Prod.mk.injEq .. ▸ h
      rw [← h1]
      exact ⟨rfl, rfl⟩
    · rcases pair with ⟨v, cur⟩
      simp only [hcn] at h
      obtain ⟨h1, -⟩ := Prod.mk.injEq .. ▸ h
      rw [← h1]
      exact ⟨rfl, rfl⟩

/-- Table with one string row used by the cast witness. -/
def castTable : Table :=
  { columns := [.str "a"],
    data := [[.vstr "x"]],
    column_types := .recCons (.str "a") (.opt (.prim .string)) .recNil }

theorem cast_incompatible_spec_witness :
    ((∃ r ∈ castTable.data,
        (if false then WBType.opt (.prim .number) else (.prim .number)).assign
          (r.getD 0 .vnull) = .invalid) →
      ∃ v cur, castTable.cast (.str "a") (.prim .number) false
        = (castTable, some (.castIncompatible v (typeOf v) cur)))
  ∧ (∀ t' e, castTable.cast (.str "a") (.prim .number) false = (t', e) →
      t'.data = castTable.data ∧ t'.columns = castTable.columns) :=
  cast_incompatible_spec castTable (.str "a") (.prim .number) false 0 (by decide)

/-- The initial binding state of a freshly created rich value: nothing
staged, nothing registered, not ready. -/
def bind0 : BindState :=
  { stagedPaths := [], boundFile := none, registered := 0, ready := false }

/-- C5 counterexample: binding the same value a second time is NOT a
no-op on the staged payload: both `Table.bind_to_run` and
`Graph.bind_to_run` write the payload to a fresh temp file and re-point
the value's staged file at it on every call, so the staged state after
the second call differs from the state after the first. -/
theorem bind_twice_restages :
    (tableBind (tableBind bind0)).stagedPaths ≠ (tableBind bind0).stagedPaths
  ∧ (tableBind (tableBind bind0)).boundFile ≠ (tableBind bind0).boundFile
  ∧ (graphBind (graphBind bind0)).stagedPaths ≠ (graphBind bind0).stagedPaths
  ∧ (graphBind (graphBind bind0)).boundFile ≠ (graphBind bind0).boundFile := by
  decide

/-- C5 (amended): the second binding of the same value to the same
destination does not register it a second time - registration is gated
by the per-value readiness flag, which the first binding sets - but the
payload is staged again: each call appends one fresh temp file and
re-points the staged file. -/
theorem bind_registration_idempotent (s : BindState) :
    (tableBind (tableBind s)).registered = (tableBind s).registered
  ∧ (graphBind (graphBind s)).registered = (graphBind s).registered
  ∧ (tableBind (tableBind s)).ready = (tableBind s).ready
  ∧ (graphBind (graphBind s)).ready = (graphBind s).ready
  ∧ (tableBind (tableBind s)).stagedPaths =
      (tableBind s).stagedPaths ++ [(tableBind s).stagedPaths.length]
  ∧ (graphBind (graphBind s)).stagedPaths =
      (graphBind s).stagedPaths ++ [(graphBind s).stagedPaths.length] := by
  unfold tableBind graphBind mediaBindBase stageFresh
  by_cases h : s.ready <;> simp [h]
